import Mathlib

/-!
Verification development for the hosh check-execution pipeline.

Shallow embedding of the Python sources:
  - `src/collector/utils.py` / `src/btc/api.py` : `parse_block_header`
  - `src/btc/api.py`                            : `query_electrumx_server`, the
    hex-handling step of the `electrum_query` endpoint
  - `src/publisher/publisher.py`                : `is_stale`, `publish_checks`
  - `src/checkers/btc/worker.py`                : `process_check_request`

Bytes are modelled as `Nat` (with explicit `< 256` bounds where needed),
fallible Python code as `Option`-returning functions, and the network as an
explicit oracle record so that control flow over (transport, method) attempts
becomes a pure fold.
-/

/-! ## Hex strings

`bytes.fromhex` in CPython decodes pairs of hex digits, skipping runs of
ASCII whitespace before each pair and at the end of the string, and raises
`ValueError` on any other character, on a whitespace character between the
two digits of one pair, or when a pair's first digit has no second digit.
`bytes.hex` produces lowercase digits and no whitespace. -/

def hexDigitVal (c : Char) : Option Nat :=
  let n := c.toNat
  if 48 ≤ n ∧ n ≤ 57 then some (n - 48)
  else if 97 ≤ n ∧ n ≤ 102 then some (n - 97 + 10)
  else if 65 ≤ n ∧ n ≤ 70 then some (n - 65 + 10)
  else none

/-- The ASCII whitespace characters skipped by `bytes.fromhex`
(CPython `Py_ISSPACE`): space, tab, LF, VT, FF, CR. -/
def isPySpace (c : Char) : Bool :=
  c = ' ' || c = '\t' || c = '\n' || c = '\x0b' || c = '\x0c' || c = '\r'

def hexDecodeList : List Char → Option (List Nat)
  | [] => some []
  | c1 :: rest =>
    if isPySpace c1 then hexDecodeList rest
    else
      match rest with
      | [] => none
      | c2 :: rest2 => do
        let hi ← hexDigitVal c1
        let lo ← hexDigitVal c2
        let bs ← hexDecodeList rest2
        pure ((16 * hi + lo) :: bs)

def hexDecode (s : String) : Option (List Nat) :=
  hexDecodeList s.data

def hexDigitChar (n : Nat) : Char :=
  if n < 10 then Char.ofNat (48 + n) else Char.ofNat (97 + (n - 10))

def hexEncodeList : List Nat → List Char
  | [] => []
  | b :: bs => hexDigitChar (b / 16) :: hexDigitChar (b % 16) :: hexEncodeList bs

def hexEncode (bs : List Nat) : String :=
  String.mk (hexEncodeList bs)

/-! ## Block header parsing

`parse_block_header` (identical in `src/collector/utils.py` lines 5-29 and
`src/btc/api.py` lines 246-270):

```
header = bytes.fromhex(header_hex)
version = struct.unpack('<I', header[0:4])[0]
prev_block = header[4:36][::-1].hex()
merkle_root = header[36:68][::-1].hex()
timestamp = struct.unpack('<I', header[68:72])[0]
bits = struct.unpack('<I', header[72:76])[0]
nonce = struct.unpack('<I', header[76:80])[0]
```

`struct.unpack('<I', b)` raises `struct.error` unless `b` has exactly 4 bytes,
and Python slicing `header[i:j]` silently truncates, so the only failure modes
are a hex-decoding error or a slice shorter than 4 bytes at one of the four
`unpack` sites.  `datetime.datetime.utcfromtimestamp` never raises for a
`uint32` argument, so the `timestamp_human` field is omitted from the model
(it is a pure display of `timestamp`). -/

structure BlockHeaderFields where
  version : Nat
  prev_block : String
  merkle_root : String
  timestamp : Nat
  bits : Nat
  nonce : Nat
deriving Repr, DecidableEq

def sliceBytes (l : List Nat) (i j : Nat) : List Nat :=
  (l.drop i).take (j - i)

def unpackLEu32 : List Nat → Option Nat
  | [b0, b1, b2, b3] => some (b0 + 256 * b1 + 65536 * b2 + 16777216 * b3)
  | _ => none

def packLEu32 (v : Nat) : List Nat :=
  [v % 256, v / 256 % 256, v / 65536 % 256, v / 16777216 % 256]

def parseBytes (header : List Nat) : Option BlockHeaderFields := do
  let version ← unpackLEu32 (sliceBytes header 0 4)
  let prev_block := hexEncode (sliceBytes header 4 36).reverse
  let merkle_root := hexEncode (sliceBytes header 36 68).reverse
  let timestamp ← unpackLEu32 (sliceBytes header 68 72)
  let bits ← unpackLEu32 (sliceBytes header 72 76)
  let nonce ← unpackLEu32 (sliceBytes header 76 80)
  pure { version := version, prev_block := prev_block, merkle_root := merkle_root,
         timestamp := timestamp, bits := bits, nonce := nonce }

def parse_block_header (header_hex : String) : Option BlockHeaderFields :=
  (hexDecode header_hex).bind parseBytes

/-- Re-serialization of the parsed fields per the 80-byte layout of spec §3:
little-endian `u32` for `version`, `timestamp`, `bits`, `nonce`, and the two
hash fields decoded from their reverse-hex display back to storage order. -/
def serializeHeader (h : BlockHeaderFields) : Option (List Nat) := do
  let pb ← hexDecode h.prev_block
  let mr ← hexDecode h.merkle_root
  pure (packLEu32 h.version ++ pb.reverse ++ mr.reverse ++
        packLEu32 h.timestamp ++ packLEu32 h.bits ++ packLEu32 h.nonce)

/-! ### Hex lemmas -/

theorem hexDigitVal_lt {c : Char} {n : Nat} (h : hexDigitVal c = some n) : n < 16 := by
  simp only [hexDigitVal] at h
  split_ifs at h <;> injection h with h <;> omega

theorem hexDigitVal_hexDigitChar {n : Nat} (h : n < 16) :
    hexDigitVal (hexDigitChar n) = some n := by
  interval_cases n <;> decide

theorem hexDigitChar_not_space {n : Nat} (h : n < 16) :
    isPySpace (hexDigitChar n) = false := by
  interval_cases n <;> decide

theorem hexDecodeList_cons_space {c : Char} {rest : List Char}
    (h : isPySpace c = true) :
    hexDecodeList (c :: rest) = hexDecodeList rest := by
  rw [hexDecodeList.eq_def]
  simp [h]

theorem hexDecodeList_single {c : Char} (h : isPySpace c = false) :
    hexDecodeList [c] = none := by
  rw [hexDecodeList.eq_def]
  simp [h]

theorem hexDecodeList_cons_pair {c1 c2 : Char} {rest2 : List Char}
    (h : isPySpace c1 = false) :
    hexDecodeList (c1 :: c2 :: rest2) =
      (hexDigitVal c1).bind fun hi =>
        (hexDigitVal c2).bind fun lo =>
          (hexDecodeList rest2).bind fun bs =>
            some ((16 * hi + lo) :: bs) := by
  rw [hexDecodeList.eq_def]
  simp [h]

theorem hexDecodeList_mem_lt :
    ∀ {cs : List Char} {bs : List Nat}, hexDecodeList cs = some bs →
      ∀ b ∈ bs, b < 256
  | [], bs, h => by
    simp only [hexDecodeList] at h
    injection h with h
    subst h; intro b hb; cases hb
  | c1 :: rest, bs, h => by
    by_cases hsp : isPySpace c1 = true
    · rw [hexDecodeList_cons_space hsp] at h
      exact hexDecodeList_mem_lt h
    · rw [Bool.not_eq_true] at hsp
      cases rest with
      | nil =>
        rw [hexDecodeList_single hsp] at h
        exact Option.noConfusion h
      | cons c2 rest2 =>
        rw [hexDecodeList_cons_pair hsp] at h
        simp only [Option.bind_eq_some] at h
        obtain ⟨hi, hhi, lo, hlo, tl, htl, hcons⟩ := h
        injection hcons with hcons
        subst hcons
        intro b hb
        rcases List.mem_cons.mp hb with hb | hb
        · subst hb
          have h1 := hexDigitVal_lt hhi
          have h2 := hexDigitVal_lt hlo
          omega
        · exact hexDecodeList_mem_lt htl b hb

theorem hexDecodeList_hexEncodeList :
    ∀ {bs : List Nat}, (∀ b ∈ bs, b < 256) →
      hexDecodeList (hexEncodeList bs) = some bs
  | [], _ => rfl
  | b :: bs, h => by
    have hb : b < 256 := h b (List.mem_cons_self b bs)
    have hdiv : b / 16 < 16 := by omega
    have hmod : b % 16 < 16 := by omega
    have ih := @hexDecodeList_hexEncodeList bs
      (fun x hx => h x (List.mem_cons_of_mem b hx))
    show hexDecodeList
        (hexDigitChar (b / 16) :: hexDigitChar (b % 16) :: hexEncodeList bs) =
      some (b :: bs)
    rw [hexDecodeList_cons_pair (hexDigitChar_not_space hdiv),
      hexDigitVal_hexDigitChar hdiv, hexDigitVal_hexDigitChar hmod, ih]
    simp only [Option.some_bind]
    have hrec : 16 * (b / 16) + b % 16 = b := by omega
    rw [hrec]

theorem hexDecode_hexEncode {bs : List Nat} (h : ∀ b ∈ bs, b < 256) :
    hexDecode (hexEncode bs) = some bs := by
  simpa [hexDecode, hexEncode] using hexDecodeList_hexEncodeList h

theorem hexDecode_mem_lt {s : String} {bs : List Nat} (h : hexDecode s = some bs) :
    ∀ b ∈ bs, b < 256 :=
  hexDecodeList_mem_lt h

/-! ### Pack / unpack lemmas -/

theorem unpackLEu32_length {l : List Nat} {v : Nat} (h : unpackLEu32 l = some v) :
    l.length = 4 := by
  unfold unpackLEu32 at h
  split at h <;> simp_all

theorem unpackLEu32_of_length {l : List Nat} (hlen : l.length = 4)
    (hb : ∀ b ∈ l, b < 256) :
    ∃ v, unpackLEu32 l = some v ∧ packLEu32 v = l := by
  match l, hlen with
  | [b0, b1, b2, b3], _ =>
    refine ⟨b0 + 256 * b1 + 65536 * b2 + 16777216 * b3, rfl, ?_⟩
    have h0 : b0 < 256 := hb b0 (by simp)
    have h1 : b1 < 256 := hb b1 (by simp)
    have h2 : b2 < 256 := hb b2 (by simp)
    have h3 : b3 < 256 := hb b3 (by simp)
    simp only [packLEu32, List.cons.injEq, and_true]
    refine ⟨by omega, by omega, by omega, by omega⟩

theorem unpackLEu32_eq_none {l : List Nat} (h : l.length ≠ 4) :
    unpackLEu32 l = none := by
  unfold unpackLEu32
  split <;> simp_all

/-! ### Slice lemmas -/

theorem sliceBytes_length {l : List Nat} {i j : Nat} (hij : i ≤ j)
    (hj : j ≤ l.length) : (sliceBytes l i j).length = j - i := by
  simp only [sliceBytes, List.length_take, List.length_drop]
  omega

theorem sliceBytes_mem {l : List Nat} {i j : Nat} {b : Nat}
    (h : b ∈ sliceBytes l i j) : b ∈ l :=
  List.mem_of_mem_drop (List.mem_of_mem_take h)

theorem sliceBytes_append {l : List Nat} {a b c : Nat} (hab : a ≤ b) (hbc : b ≤ c) :
    sliceBytes l a b ++ sliceBytes l b c = sliceBytes l a c := by
  simp only [sliceBytes]
  have hdrop : l.drop b = (l.drop a).drop (b - a) := by
    rw [List.drop_drop]
    congr 1
    omega
  rw [hdrop, ← List.take_add]
  congr 1
  omega

theorem sliceBytes_zero_full {l : List Nat} (h : l.length = 80) :
    sliceBytes l 0 80 = l := by
  simp only [sliceBytes, List.drop_zero, Nat.sub_zero]
  rw [← h, List.take_length]

theorem sliceBytes_length_general (l : List Nat) (i j : Nat) :
    (sliceBytes l i j).length = min (j - i) (l.length - i) := by
  simp [sliceBytes, List.length_take, List.length_drop]

/-- Shape of a successful parse on a byte list of length at least 80: all four
`unpack` sites succeed, the parsed record is built from the layout slices, and
each `u32` field re-packs to its source slice. -/
theorem parseBytes_shape {bs : List Nat} (hlen : 80 ≤ bs.length)
    (hb : ∀ b ∈ bs, b < 256) :
    ∃ v0 v3 v4 v5,
      unpackLEu32 (sliceBytes bs 0 4) = some v0 ∧
      unpackLEu32 (sliceBytes bs 68 72) = some v3 ∧
      unpackLEu32 (sliceBytes bs 72 76) = some v4 ∧
      unpackLEu32 (sliceBytes bs 76 80) = some v5 ∧
      parseBytes bs = some
        { version := v0,
          prev_block := hexEncode (sliceBytes bs 4 36).reverse,
          merkle_root := hexEncode (sliceBytes bs 36 68).reverse,
          timestamp := v3, bits := v4, nonce := v5 } ∧
      packLEu32 v0 = sliceBytes bs 0 4 ∧
      packLEu32 v3 = sliceBytes bs 68 72 ∧
      packLEu32 v4 = sliceBytes bs 72 76 ∧
      packLEu32 v5 = sliceBytes bs 76 80 := by
  have hmem : ∀ i j : Nat, ∀ b ∈ sliceBytes bs i j, b < 256 :=
    fun i j b hbmem => hb b (sliceBytes_mem hbmem)
  have l0 : (sliceBytes bs 0 4).length = 4 := by
    rw [sliceBytes_length_general]; omega
  have l3 : (sliceBytes bs 68 72).length = 4 := by
    rw [sliceBytes_length_general]; omega
  have l4 : (sliceBytes bs 72 76).length = 4 := by
    rw [sliceBytes_length_general]; omega
  have l5 : (sliceBytes bs 76 80).length = 4 := by
    rw [sliceBytes_length_general]; omega
  obtain ⟨v0, hv0, hp0⟩ := unpackLEu32_of_length l0 (hmem 0 4)
  obtain ⟨v3, hv3, hp3⟩ := unpackLEu32_of_length l3 (hmem 68 72)
  obtain ⟨v4, hv4, hp4⟩ := unpackLEu32_of_length l4 (hmem 72 76)
  obtain ⟨v5, hv5, hp5⟩ := unpackLEu32_of_length l5 (hmem 76 80)
  refine ⟨v0, v3, v4, v5, hv0, hv3, hv4, hv5, ?_, hp0, hp3, hp4, hp5⟩
  simp [parseBytes, hv0, hv3, hv4, hv5]

/-- C1: for every valid 80-byte header hex string, `parse_block_header`
decodes the fields at the layout offsets of spec §3 (version little-endian at
bytes 0-4, `prev_block` as the byte-reversed hex of bytes 4-36, `merkle_root`
as the byte-reversed hex of bytes 36-68, timestamp at 68-72, bits at 72-76,
nonce at 76-80), and re-serializing the parsed fields per that layout — with
`prev_block` and `merkle_root` round-tripping through their reverse-hex
display — reproduces the input bytes byte-for-byte. -/
theorem c1_header_roundtrip (s : String) (bs : List Nat)
    (hdec : hexDecode s = some bs) (hlen : bs.length = 80) :
    ∃ h, parse_block_header s = some h ∧
      unpackLEu32 (sliceBytes bs 0 4) = some h.version ∧
      h.prev_block = hexEncode (sliceBytes bs 4 36).reverse ∧
      h.merkle_root = hexEncode (sliceBytes bs 36 68).reverse ∧
      unpackLEu32 (sliceBytes bs 68 72) = some h.timestamp ∧
      unpackLEu32 (sliceBytes bs 72 76) = some h.bits ∧
      unpackLEu32 (sliceBytes bs 76 80) = some h.nonce ∧
      serializeHeader h = some bs := by
  have hb := hexDecode_mem_lt hdec
  obtain ⟨v0, v3, v4, v5, hv0, hv3, hv4, hv5, hparse, hp0, hp3, hp4, hp5⟩ :=
    parseBytes_shape (le_of_eq hlen.symm) hb
  have hrev1 : ∀ b ∈ (sliceBytes bs 4 36).reverse, b < 256 :=
    fun b hbm => hb b (sliceBytes_mem (List.mem_reverse.mp hbm))
  have hrev2 : ∀ b ∈ (sliceBytes bs 36 68).reverse, b < 256 :=
    fun b hbm => hb b (sliceBytes_mem (List.mem_reverse.mp hbm))
  refine ⟨_, by simpa [parse_block_header, hdec] using hparse,
    hv0, rfl, rfl, hv3, hv4, hv5, ?_⟩
  simp only [serializeHeader, hexDecode_hexEncode hrev1, hexDecode_hexEncode hrev2,
    Option.bind_eq_bind, Option.some_bind, List.reverse_reverse, Option.pure_def,
    Option.some.injEq, hp0, hp3, hp4, hp5]
  have e1 : sliceBytes bs 0 4 ++ sliceBytes bs 4 36 = sliceBytes bs 0 36 :=
    sliceBytes_append (by omega) (by omega)
  have e2 : sliceBytes bs 0 36 ++ sliceBytes bs 36 68 = sliceBytes bs 0 68 :=
    sliceBytes_append (by omega) (by omega)
  have e3 : sliceBytes bs 0 68 ++ sliceBytes bs 68 72 = sliceBytes bs 0 72 :=
    sliceBytes_append (by omega) (by omega)
  have e4 : sliceBytes bs 0 72 ++ sliceBytes bs 72 76 = sliceBytes bs 0 76 :=
    sliceBytes_append (by omega) (by omega)
  have e5 : sliceBytes bs 0 76 ++ sliceBytes bs 76 80 = sliceBytes bs 0 80 :=
    sliceBytes_append (by omega) (by omega)
  rw [e1, e2, e3, e4, e5, sliceBytes_zero_full hlen]

def zhex160 : String :=
  "0000000000000000000000000000000000000000000000000000000000000000000000000000000000000000000000000000000000000000000000000000000000000000000000000000000000000000"

set_option maxRecDepth 40000 in
/-- Witness for C1 at a concrete 160-hex-character header. -/
theorem c1_header_roundtrip_witness :
    hexDecode zhex160 = some (List.replicate 80 0) ∧
    (List.replicate 80 0 : List Nat).length = 80 ∧
    (∃ h, parse_block_header zhex160 = some h ∧
      unpackLEu32 (sliceBytes (List.replicate 80 0) 0 4) = some h.version ∧
      h.prev_block = hexEncode (sliceBytes (List.replicate 80 0) 4 36).reverse ∧
      h.merkle_root = hexEncode (sliceBytes (List.replicate 80 0) 36 68).reverse ∧
      unpackLEu32 (sliceBytes (List.replicate 80 0) 68 72) = some h.timestamp ∧
      unpackLEu32 (sliceBytes (List.replicate 80 0) 72 76) = some h.bits ∧
      unpackLEu32 (sliceBytes (List.replicate 80 0) 76 80) = some h.nonce ∧
      serializeHeader h = some (List.replicate 80 0)) :=
  ⟨by decide, by decide,
    c1_header_roundtrip zhex160 (List.replicate 80 0) (by decide) (by decide)⟩

/-! ### Parse domain lemmas -/

theorem unpackLEu32_isSome_of_length {l : List Nat} (h : l.length = 4) :
    (unpackLEu32 l).isSome := by
  match l, h with
  | [b0, b1, b2, b3], _ => rfl

theorem sliceBytes_take {l : List Nat} {n i j : Nat} (h : j ≤ n) :
    sliceBytes (l.take n) i j = sliceBytes l i j := by
  simp only [sliceBytes, List.drop_take, List.take_take]
  congr 1
  omega

theorem parseBytes_none_of_short {bs : List Nat} (h : bs.length < 80) :
    parseBytes bs = none := by
  have hnonce : unpackLEu32 (sliceBytes bs 76 80) = none := by
    apply unpackLEu32_eq_none
    rw [sliceBytes_length_general]
    omega
  cases h0 : unpackLEu32 (sliceBytes bs 0 4) <;>
    cases h3 : unpackLEu32 (sliceBytes bs 68 72) <;>
      cases h4 : unpackLEu32 (sliceBytes bs 72 76) <;>
        simp [parseBytes, h0, h3, h4, hnonce]

theorem parseBytes_isSome_of_length {bs : List Nat} (h : 80 ≤ bs.length) :
    (parseBytes bs).isSome := by
  have l0 : (sliceBytes bs 0 4).length = 4 := by
    rw [sliceBytes_length_general]; omega
  have l3 : (sliceBytes bs 68 72).length = 4 := by
    rw [sliceBytes_length_general]; omega
  have l4 : (sliceBytes bs 72 76).length = 4 := by
    rw [sliceBytes_length_general]; omega
  have l5 : (sliceBytes bs 76 80).length = 4 := by
    rw [sliceBytes_length_general]; omega
  obtain ⟨v0, hv0⟩ := Option.isSome_iff_exists.mp (unpackLEu32_isSome_of_length l0)
  obtain ⟨v3, hv3⟩ := Option.isSome_iff_exists.mp (unpackLEu32_isSome_of_length l3)
  obtain ⟨v4, hv4⟩ := Option.isSome_iff_exists.mp (unpackLEu32_isSome_of_length l4)
  obtain ⟨v5, hv5⟩ := Option.isSome_iff_exists.mp (unpackLEu32_isSome_of_length l5)
  simp [parseBytes, hv0, hv3, hv4, hv5]

theorem parseBytes_take80 {bs : List Nat} :
    parseBytes (bs.take 80) = parseBytes bs := by
  have h4 : sliceBytes (bs.take 80) 0 4 = sliceBytes bs 0 4 :=
    sliceBytes_take (by omega)
  have h36 : sliceBytes (bs.take 80) 4 36 = sliceBytes bs 4 36 :=
    sliceBytes_take (by omega)
  have h68 : sliceBytes (bs.take 80) 36 68 = sliceBytes bs 36 68 :=
    sliceBytes_take (by omega)
  have h72 : sliceBytes (bs.take 80) 68 72 = sliceBytes bs 68 72 :=
    sliceBytes_take (by omega)
  have h76 : sliceBytes (bs.take 80) 72 76 = sliceBytes bs 72 76 :=
    sliceBytes_take (by omega)
  have h80 : sliceBytes (bs.take 80) 76 80 = sliceBytes bs 76 80 :=
    sliceBytes_take (by omega)
  simp only [parseBytes, h4, h36, h68, h72, h76, h80]

theorem hexDecodeList_isSome_iff :
    ∀ cs : List Char, (∀ c ∈ cs, isPySpace c = false) →
      ((hexDecodeList cs).isSome ↔
        (cs.length % 2 = 0 ∧ ∀ c ∈ cs, (hexDigitVal c).isSome))
  | [] => by
    intro hws
    simp [hexDecodeList]
  | [c] => by
    intro hws
    have hc : isPySpace c = false := hws c (List.mem_cons_self c [])
    rw [hexDecodeList_single hc]
    simp
  | c1 :: c2 :: rest => by
    intro hws
    have hc1 : isPySpace c1 = false := hws c1 (by simp)
    have ih := hexDecodeList_isSome_iff rest (fun x hx => hws x (by simp [hx]))
    have hmod : (c1 :: c2 :: rest).length % 2 = rest.length % 2 := by
      simp only [List.length_cons]
      omega
    rw [hexDecodeList_cons_pair hc1]
    cases h1 : hexDigitVal c1 <;> cases h2 : hexDigitVal c2 <;>
      cases h3 : hexDecodeList rest
    all_goals
      simp_all [hmod]

/-! ## JSON values

Minimal model of the values produced by `json.loads`.  Object field lists
model Python dicts with distinct keys (the JSON decoder collapses duplicate
keys before the probe code ever sees the dict). -/

inductive JValue where
  | null
  | bool (b : Bool)
  | num (n : Int)
  | str (s : String)
  | arr (elems : List JValue)
  | obj (fields : List (String × JValue))

/-- Key lookup in a JSON object, the model of both `key in d` (presence:
result `isSome`) and `d.get(key)` (value, `None` when absent).  A key bound to
JSON `null` is present — `"result" in d` is `True` for `{"result": null}`. -/
def jlookup : List (String × JValue) → String → Option JValue
  | [], _ => none
  | (k, v) :: rest, key => if k = key then some v else jlookup rest key

/-! ## The hex-field step of the `electrum_query` endpoint

`src/btc/api.py` lines 394-402: when the RPC result object has a `hex` key the
endpoint tries `parse_block_header` on it; success flattens the parsed fields
into the response, and any exception is caught and recorded as a
`hex_parse_error` field (a non-string `hex` value makes `bytes.fromhex` raise
`TypeError`, caught the same way). -/

inductive HexStep where
  | noHexKey
  | parseError
  | parsed (f : BlockHeaderFields)
deriving Repr, DecidableEq

def handleHexField (result_obj : List (String × JValue)) : HexStep :=
  match jlookup result_obj "hex" with
  | none => .noHexKey
  | some (.str h) =>
    match parse_block_header h with
    | some f => .parsed f
    | none => .parseError
  | some _ => .parseError

def zhex164 : String :=
  "00000000000000000000000000000000000000000000000000000000000000000000000000000000000000000000000000000000000000000000000000000000000000000000000000000000000000000000"

def zhex64 : String :=
  "0000000000000000000000000000000000000000000000000000000000000000"

def zhex100 : String :=
  "0000000000000000000000000000000000000000000000000000000000000000000000000000000000000000000000000000"

def zhex170 : String :=
  "00000000000000000000000000000000000000000000000000000000000000000000000000000000000000000000000000000000000000000000000000000000000000000000000000000000000000000000000000"

set_option maxRecDepth 40000 in
/-- Counterexample to C9: a valid hex string of 164 characters (82 bytes,
longer than 160) is NOT rejected by the header-parsing step — it parses
successfully from its first 80 bytes and the endpoint flattens the parsed
fields, with no protocol error recorded. -/
theorem c9_counterexample :
    zhex164.data.length = 164 ∧
    handleHexField [("hex", JValue.str zhex164)] =
      .parsed { version := 0, prev_block := zhex64, merkle_root := zhex64,
                timestamp := 0, bits := 0, nonce := 0 } := by
  constructor
  · decide
  · decide

/-- C9 amended: within the `electrum_query` hex-handling step, a `hex` string
decoding to fewer than 80 bytes (in particular any valid hex shorter than 160
characters) is rejected with a recorded parse error, while a `hex` string
decoding to 80 bytes or more — including strings longer than 160 characters —
parses successfully; over-length strings are not rejected. -/
theorem c9_amended_hex_length (fields : List (String × JValue)) (h : String)
    (bs : List Nat) (hhex : jlookup fields "hex" = some (.str h))
    (hdec : hexDecode h = some bs) :
    (bs.length < 80 → handleHexField fields = .parseError) ∧
    (80 ≤ bs.length → ∃ f, handleHexField fields = .parsed f) := by
  constructor
  · intro hshort
    have hnone : parse_block_header h = none := by
      simp [parse_block_header, hdec, parseBytes_none_of_short hshort]
    simp [handleHexField, hhex, hnone]
  · intro hlong
    have hsome : (parse_block_header h).isSome := by
      simpa [parse_block_header, hdec] using parseBytes_isSome_of_length hlong
    obtain ⟨f, hf⟩ := Option.isSome_iff_exists.mp hsome
    exact ⟨f, by simp [handleHexField, hhex, hf]⟩

set_option maxRecDepth 40000 in
/-- Witness for the amended C9: a 100-character hex string (50 bytes) is
rejected with a parse error. -/
theorem c9_amended_hex_length_witness :
    handleHexField [("hex", JValue.str zhex100)] = .parseError :=
  (c9_amended_hex_length [("hex", JValue.str zhex100)] zhex100
    (List.replicate 50 0) (by rfl) (by decide)).1 (by decide)

/-- C10: `parse_block_header` fails exactly when its input is not a valid hex
string — not accepted by `bytes.fromhex`, i.e. not an even number of hex
digits once the tolerated ASCII whitespace between byte pairs is accounted
for; on whitespace-free strings acceptance is exactly even length and all hex
digits (first conjunct) — or decodes to fewer than 80 bytes; on every valid
hex string decoding to 80 bytes or more it succeeds, silently using only the
first 80 bytes (so over-length inputs are never reported as errors by the
parser itself). -/
theorem c10_parse_totality (s : String) :
    ((∀ c ∈ s.data, isPySpace c = false) →
      ((hexDecode s).isSome ↔
        s.data.length % 2 = 0 ∧ ∀ c ∈ s.data, (hexDigitVal c).isSome)) ∧
    (parse_block_header s = none ↔
      hexDecode s = none ∨ ∃ bs, hexDecode s = some bs ∧ bs.length < 80) ∧
    (∀ bs, hexDecode s = some bs → 80 ≤ bs.length →
      parse_block_header s = parseBytes (bs.take 80) ∧
      (parse_block_header s).isSome) := by
  refine ⟨hexDecodeList_isSome_iff s.data, ?_, ?_⟩
  · cases hdec : hexDecode s with
    | none => simp [parse_block_header, hdec]
    | some bs =>
      simp only [parse_block_header, hdec, Option.some_bind, Option.some.injEq,
        reduceCtorEq, false_or]
      constructor
      · intro hnone
        refine ⟨bs, rfl, ?_⟩
        by_contra hge
        have hs := @parseBytes_isSome_of_length bs (by omega)
        rw [hnone] at hs
        cases hs
      · rintro ⟨bs', hbs', hshort⟩
        subst hbs'
        exact parseBytes_none_of_short hshort
  · intro bs hdec hlong
    refine ⟨?_, ?_⟩
    · simp [parse_block_header, hdec, parseBytes_take80]
    · simpa [parse_block_header, hdec] using parseBytes_isSome_of_length hlong

def wshex240 : String :=
  "00 00 00 00 00 00 00 00 00 00 00 00 00 00 00 00 00 00 00 00 00 00 00 00 00 00 00 00 00 00 00 00 00 00 00 00 00 00 00 00 00 00 00 00 00 00 00 00 00 00 00 00 00 00 00 00 00 00 00 00 00 00 00 00 00 00 00 00 00 00 00 00 00 00 00 00 00 00 00 00 "

set_option maxRecDepth 100000 in
/-- Witness for C10 at two concrete inputs: a 170-character hex string
(85 bytes) parses successfully, equal to the parse of its first 80 bytes, and
a space-separated 240-character string that `bytes.fromhex` decodes to
80 bytes parses successfully as well. -/
theorem c10_parse_totality_witness :
    (parse_block_header zhex170 = parseBytes ((List.replicate 85 0).take 80) ∧
      (parse_block_header zhex170).isSome) ∧
    (parse_block_header wshex240 = parseBytes ((List.replicate 80 0).take 80) ∧
      (parse_block_header wshex240).isSome) :=
  ⟨(c10_parse_totality zhex170).2.2 (List.replicate 85 0) (by decide) (by decide),
   (c10_parse_totality wshex240).2.2 (List.replicate 80 0) (by decide) (by decide)⟩

/-! ## The Electrum probe: `query_electrumx_server` (`src/btc/api.py` 106-226)

The network is an explicit oracle: `reach c` is the outcome of the 5-second
reachability `create_connection` for a transport option, `rpc c m` the outcome
of the full connect/send/recv/`json.loads` attempt for one
(transport, method) pair (`exn` for any exception on that path — connect
failure, TLS failure, socket error, JSON decode error), and `ping c m` the
measured round-trip.  Alongside its result the model returns the ordered log
of (transport, method) RPC attempts actually issued, so "issues no RPC" is a
statement about the log. -/

structure ConnOpt where
  port : Nat
  use_ssl : Bool
deriving Repr, DecidableEq

inductive PortsSpec where
  | dict (s : Option Nat) (t : Option Nat)
  | single (p : Nat)
deriving Repr, DecidableEq

def connection_options : PortsSpec → List ConnOpt
  | .dict s t =>
    (match s with | some p => [{ port := p, use_ssl := true }] | none => []) ++
    (match t with | some p => [{ port := p, use_ssl := false }] | none => [])
  | .single p => [{ port := p, use_ssl := false }]

structure MethodCfg where
  method : String
  params : List JValue

def defaultMethod : String := "blockchain.headers.subscribe"

/-- The method fallback list; a falsy caller method (`None` or the empty
string) is replaced by the default. -/
def methodsList (method : Option String) (params : List JValue) : List MethodCfg :=
  let m := match method with
    | none => defaultMethod
    | some s => if s = "" then defaultMethod else s
  [{ method := m, params := params },
   { method := "server.features", params := [] },
   { method := "blockchain.numblocks.subscribe", params := [] }]

inductive RpcOutcome where
  | exn
  | ok (response : JValue)

structure Network where
  reach : ConnOpt → Bool
  rpc : ConnOpt → MethodCfg → RpcOutcome
  ping : ConnOpt → MethodCfg → Nat

def connTypeStr (use_ssl : Bool) : String :=
  if use_ssl then "SSL" else "Plaintext"

/-- The four dict shapes `query_electrumx_server` can return: the
unreachable-host dict, the missing-`result` dict (with the response's `id`
and `error` sub-objects verbatim), the success dict, and the
all-methods-failed dict. -/
inductive QueryResult where
  | unreachable (host : String) (ports : PortsSpec)
  | malformed (ping : Nat) (response_id : Option JValue) (response_error : Option JValue)
      (method_used : String) (connection_type : String) (self_signed : Bool)
  | success (ping : Nat) (result : JValue) (method_used : String)
      (connection_type : String) (self_signed : Bool)
  | allFailed (host : String) (ports : PortsSpec)

/-- Classification of one RPC attempt, lines 160-220 of `src/btc/api.py`:
an exception anywhere in the attempt means `continue`; a parsed dict without
a `result` key returns the malformed-response dict; a parsed dict with a
`result` key (even one bound to JSON `null`) returns the success dict.  A
parsed non-dict response makes `response_data.get(...)` raise, which the
`except` clause turns into `continue` as well.  `self_signed` is `True` on
the TLS branch and `False` on the plaintext branch of the attempt. -/
def classifyAttempt (conn : ConnOpt) (m : MethodCfg) (p : Nat) :
    RpcOutcome → Option QueryResult
  | .exn => none
  | .ok resp =>
    match resp with
    | .obj fields =>
      match jlookup fields "result" with
      | none => some (.malformed p (jlookup fields "id") (jlookup fields "error")
          m.method (connTypeStr conn.use_ssl) conn.use_ssl)
      | some r => some (.success p r m.method (connTypeStr conn.use_ssl) conn.use_ssl)
    | _ => none

/-- Inner loop: `for method_config in methods`, under one transport. -/
def tryMethods (net : Network) (conn : ConnOpt) :
    List MethodCfg → Option QueryResult × List (ConnOpt × MethodCfg)
  | [] => (none, [])
  | m :: rest =>
    match classifyAttempt conn m (net.ping conn m) (net.rpc conn m) with
    | some r => (some r, [(conn, m)])
    | none =>
      let next := tryMethods net conn rest
      (next.1, (conn, m) :: next.2)

/-- Outer loop: `for connection in connection_options`. -/
def tryConnections (net : Network) (methods : List MethodCfg) :
    List ConnOpt → Option QueryResult × List (ConnOpt × MethodCfg)
  | [] => (none, [])
  | c :: rest =>
    match tryMethods net c methods with
    | (some r, log) => (some r, log)
    | (none, log) =>
      let next := tryConnections net methods rest
      (next.1, log ++ next.2)

def query_electrumx_server (net : Network) (host : String) (ports : PortsSpec)
    (method : Option String) (params : List JValue) :
    QueryResult × List (ConnOpt × MethodCfg) :=
  let conns := connection_options ports
  if conns.any (fun c => net.reach c) then
    match tryConnections net (methodsList method params) conns with
    | (some r, log) => (r, log)
    | (none, log) => (.allFailed host ports, log)
  else
    (.unreachable host ports, [])

def selfSignedOf : QueryResult → Option Bool
  | .malformed _ _ _ _ _ ss => some ss
  | .success _ _ _ _ ss => some ss
  | _ => none

def connectionTypeOf : QueryResult → Option String
  | .malformed _ _ _ _ ct _ => some ct
  | .success _ _ _ ct _ => some ct
  | _ => none

def isAttemptOutcome : QueryResult → Bool
  | .malformed _ _ _ _ _ _ => true
  | .success _ _ _ _ _ => true
  | _ => false

/-! ### Probe lemmas -/

theorem classifyAttempt_flags {conn : ConnOpt} {m : MethodCfg} {p : Nat}
    {out : RpcOutcome} {r : QueryResult}
    (h : classifyAttempt conn m p out = some r) :
    selfSignedOf r = some conn.use_ssl ∧
    connectionTypeOf r = some (connTypeStr conn.use_ssl) ∧
    isAttemptOutcome r = true := by
  cases out with
  | exn => simp [classifyAttempt] at h
  | ok resp =>
    cases resp with
    | obj fields =>
      cases hj : jlookup fields "result" with
      | none =>
        simp only [classifyAttempt, hj, Option.some.injEq] at h
        subst h
        exact ⟨rfl, rfl, rfl⟩
      | some v =>
        simp only [classifyAttempt, hj, Option.some.injEq] at h
        subst h
        exact ⟨rfl, rfl, rfl⟩
    | null => simp [classifyAttempt] at h
    | bool b => simp [classifyAttempt] at h
    | num n => simp [classifyAttempt] at h
    | str s => simp [classifyAttempt] at h
    | arr es => simp [classifyAttempt] at h

theorem tryMethods_last {net : Network} {conn : ConnOpt} :
    ∀ {methods : List MethodCfg} {r : QueryResult} {log : List (ConnOpt × MethodCfg)},
      tryMethods net conn methods = (some r, log) →
      ∃ m, log.getLast? = some (conn, m) ∧
        classifyAttempt conn m (net.ping conn m) (net.rpc conn m) = some r
  | [], r, log, h => by simp [tryMethods] at h
  | m :: rest, r, log, h => by
    rw [tryMethods] at h
    split at h
    · rename_i r' hc
      injection h with h1 h2
      injection h1 with h1
      subst h1; subst h2
      exact ⟨m, rfl, hc⟩
    · rename_i hc
      injection h with h1 h2
      obtain ⟨m', hlast, hcl⟩ := tryMethods_last
        (show tryMethods net conn rest = (some r, (tryMethods net conn rest).2) by
          rw [Prod.ext_iff]
          exact ⟨h1, rfl⟩)
      subst h2
      refine ⟨m', ?_, hcl⟩
      calc ((conn, m) :: (tryMethods net conn rest).2).getLast?
          = ([(conn, m)] ++ (tryMethods net conn rest).2).getLast? := rfl
        _ = ((tryMethods net conn rest).2).getLast?.or ([(conn, m)].getLast?) :=
            List.getLast?_append
        _ = some (conn, m') := by rw [hlast]; rfl

theorem tryConnections_last {net : Network} {methods : List MethodCfg} :
    ∀ {conns : List ConnOpt} {r : QueryResult} {log : List (ConnOpt × MethodCfg)},
      tryConnections net methods conns = (some r, log) →
      ∃ c m, log.getLast? = some (c, m) ∧
        classifyAttempt c m (net.ping c m) (net.rpc c m) = some r
  | [], r, log, h => by simp [tryConnections] at h
  | c :: rest, r, log, h => by
    rw [tryConnections] at h
    split at h
    · rename_i r' log' hm
      injection h with h1 h2
      injection h1 with h1
      subst h1; subst h2
      obtain ⟨m, hlast, hcl⟩ := tryMethods_last hm
      exact ⟨c, m, hlast, hcl⟩
    · rename_i log' hm
      injection h with h1 h2
      obtain ⟨c', m', hlast, hcl⟩ := tryConnections_last
        (show tryConnections net methods rest =
            (some r, (tryConnections net methods rest).2) by
          rw [Prod.ext_iff]
          exact ⟨h1, rfl⟩)
      subst h2
      refine ⟨c', m', ?_, hcl⟩
      rw [List.getLast?_append, hlast]
      rfl

/-- C3: if no transport option passes the TCP reachability pre-check, the
probe returns the unreachable-host result (`error_kind=host_unreachable` in
the spec's taxonomy, the `Server is unreachable` dict in the source) and
issues no RPC; conversely, a nonempty RPC-attempt log implies at least one
pre-check connect succeeded. -/
theorem c3_reachability_precheck (net : Network) (host : String) (ports : PortsSpec)
    (method : Option String) (params : List JValue) :
    ((∀ c ∈ connection_options ports, net.reach c = false) →
      query_electrumx_server net host ports method params =
        (.unreachable host ports, [])) ∧
    ((query_electrumx_server net host ports method params).2 ≠ [] →
      ∃ c ∈ connection_options ports, net.reach c = true) := by
  constructor
  · intro hall
    have hany : (connection_options ports).any (fun c => net.reach c) = false := by
      rw [Bool.eq_false_iff]
      intro hsome
      obtain ⟨c, hc, hr⟩ := List.any_eq_true.mp hsome
      rw [hall c hc] at hr
      cases hr
    simp [query_electrumx_server, hany]
  · intro hlog
    by_contra hnone
    push_neg at hnone
    have hall : ∀ c ∈ connection_options ports, net.reach c = false := by
      intro c hc
      have := hnone c hc
      revert this
      cases net.reach c <;> simp
    have hq : query_electrumx_server net host ports method params =
        (.unreachable host ports, []) := by
      have hany : (connection_options ports).any (fun c => net.reach c) = false := by
        rw [Bool.eq_false_iff]
        intro hsome
        obtain ⟨c, hc, hr⟩ := List.any_eq_true.mp hsome
        rw [hall c hc] at hr
        cases hr
      simp [query_electrumx_server, hany]
    rw [hq] at hlog
    exact hlog rfl

def net3 : Network :=
  { reach := fun _ => false, rpc := fun _ _ => .exn, ping := fun _ _ => 0 }

/-- Witness for C3: with every connect refused, the probe returns the
unreachable result and the RPC log is empty. -/
theorem c3_reachability_precheck_witness :
    query_electrumx_server net3 "example.com" (.dict (some 50002) (some 50001))
      none [] =
      (.unreachable "example.com" (.dict (some 50002) (some 50001)), []) :=
  (c3_reachability_precheck net3 "example.com" (.dict (some 50002) (some 50001))
    none []).1 (by intro c hc; rfl)

/-- C4: when the port specification includes an SSL port, the ordered
transport-attempt list puts the TLS option (the one flagged `use_ssl`, whose
TLS context has certificate verification disabled in the source) first,
before any plaintext option; and whenever the probe's result was produced by
an RPC attempt (the last attempt in the log), its `self_signed` flag equals
that attempt's `use_ssl` — `true` over TLS, `false` over plaintext — with the
matching `connection_type` string. -/
theorem c4_tls_first_self_signed :
    (∀ sp topt, connection_options (.dict (some sp) topt) =
      { port := sp, use_ssl := true } ::
        (match topt with
         | some tp => [{ port := tp, use_ssl := false }]
         | none => [])) ∧
    (∀ net host ports method params r log c m,
      query_electrumx_server net host ports method params = (r, log) →
      isAttemptOutcome r = true →
      log.getLast? = some (c, m) →
      selfSignedOf r = some c.use_ssl ∧
      connectionTypeOf r = some (connTypeStr c.use_ssl)) := by
  constructor
  · intro sp topt
    cases topt <;> rfl
  · intro net host ports method params r log c m hq hattempt hlast
    rw [query_electrumx_server] at hq
    split at hq
    · split at hq
      · rename_i r' log' htc
        injection hq with h1 h2
        subst h1; subst h2
        obtain ⟨c', m', hlast', hcl⟩ := tryConnections_last htc
        rw [hlast'] at hlast
        injection hlast with hpair
        injection hpair with hc2 hm2
        subst hc2
        obtain ⟨hss, hct, _⟩ := classifyAttempt_flags hcl
        exact ⟨hss, hct⟩
      · rename_i log' htc
        injection hq with h1 h2
        subst h1
        simp [isAttemptOutcome] at hattempt
    · injection hq with h1 h2
      subst h1
      simp [isAttemptOutcome] at hattempt

def net4 : Network :=
  { reach := fun _ => true,
    rpc := fun _ _ => .ok (.obj [("result", .num 5)]),
    ping := fun _ _ => 9 }

/-- Witness for C4: a TLS-only port spec yields a result over the TLS attempt
carrying `self_signed=true` and `connection_type=SSL`. -/
theorem c4_tls_first_self_signed_witness :
    selfSignedOf (.success 9 (.num 5) "blockchain.headers.subscribe" "SSL" true) =
      some true ∧
    connectionTypeOf (.success 9 (.num 5) "blockchain.headers.subscribe" "SSL" true) =
      some (connTypeStr true) :=
  c4_tls_first_self_signed.2 net4 "example.com" (.dict (some 50002) none) none []
    (.success 9 (.num 5) "blockchain.headers.subscribe" "SSL" true)
    [({ port := 50002, use_ssl := true },
      { method := "blockchain.headers.subscribe", params := [] })]
    { port := 50002, use_ssl := true }
    { method := "blockchain.headers.subscribe", params := [] }
    rfl rfl rfl

/-! ### C2: behaviour on a response missing the `result` field -/

def net2 : Network :=
  { reach := fun _ => true,
    rpc := fun _ m =>
      if m.method = "blockchain.headers.subscribe" then
        .ok (.obj [("id", .num 1), ("error", .obj [("code", .num (-32601))])])
      else
        .ok (.obj [("id", .num 1), ("result", .str "ok")]),
    ping := fun _ _ => 7 }

/-- Counterexample to C2: with a server whose first method returns a JSON
response lacking `result` (carrying an `error` object) and whose remaining
methods would succeed, the probe nevertheless terminates immediately with the
first attempt's protocol-error outcome: the result is the malformed-response
record of method 1 and the attempt log contains only that single attempt —
the probe does NOT proceed to the next method in the fallback list. -/
theorem c2_counterexample :
    query_electrumx_server net2 "example.com" (.single 50001) none [] =
      (.malformed 7 (some (.num 1)) (some (.obj [("code", .num (-32601))]))
        "blockchain.headers.subscribe" "Plaintext" false,
       [({ port := 50001, use_ssl := false },
         { method := "blockchain.headers.subscribe", params := [] })]) := rfl

/-- Within one transport, the method loop runs past exactly those attempts
that raise (classify to `none`); at the first attempt whose response is a
JSON object without a `result` key it stops, returning the
malformed-response record, and the remaining methods are never attempted. -/
theorem tryMethods_stops (net : Network) (conn : ConnOpt) :
    ∀ (mpre : List MethodCfg) (m : MethodCfg) (mrest : List MethodCfg)
      (fields : List (String × JValue)),
      (∀ mp ∈ mpre,
        classifyAttempt conn mp (net.ping conn mp) (net.rpc conn mp) = none) →
      net.rpc conn m = .ok (.obj fields) →
      jlookup fields "result" = none →
      tryMethods net conn (mpre ++ m :: mrest) =
        (some (.malformed (net.ping conn m) (jlookup fields "id")
            (jlookup fields "error") m.method (connTypeStr conn.use_ssl)
            conn.use_ssl),
         mpre.map (fun mp => (conn, mp)) ++ [(conn, m)])
  | [], m, mrest, fields, hpre, hrpc, hnores => by
    have hcl : classifyAttempt conn m (net.ping conn m) (net.rpc conn m) =
        some (.malformed (net.ping conn m) (jlookup fields "id")
          (jlookup fields "error") m.method (connTypeStr conn.use_ssl)
          conn.use_ssl) := by
      rw [hrpc]
      simp [classifyAttempt, hnores]
    simp [tryMethods, hcl]
  | mp :: mpre, m, mrest, fields, hpre, hrpc, hnores => by
    have hmp : classifyAttempt conn mp (net.ping conn mp) (net.rpc conn mp) =
        none := hpre mp (List.mem_cons_self mp mpre)
    have ih := tryMethods_stops net conn mpre m mrest fields
      (fun x hx => hpre x (List.mem_cons_of_mem mp hx)) hrpc hnores
    rw [List.cons_append, tryMethods, hmp]
    simp [ih]

/-- Across transports, the connection loop runs past exactly those transports
whose whole method list yields no returnable outcome; the first transport
whose method loop returns an outcome ends the probe with that outcome. -/
theorem tryConnections_stops (net : Network) (methods : List MethodCfg) :
    ∀ (cpre : List ConnOpt) (conn : ConnOpt) (crest : List ConnOpt)
      (r : QueryResult) (log : List (ConnOpt × MethodCfg)),
      (∀ c ∈ cpre, (tryMethods net c methods).1 = none) →
      tryMethods net conn methods = (some r, log) →
      tryConnections net methods (cpre ++ conn :: crest) =
        (some r,
         (cpre.map fun c => (tryMethods net c methods).2).flatten ++ log)
  | [], conn, crest, r, log, hpre, hm => by
    simp [tryConnections, hm]
  | c :: cpre, conn, crest, r, log, hpre, hm => by
    have hc : tryMethods net c methods = (none, (tryMethods net c methods).2) := by
      rw [Prod.ext_iff]
      exact ⟨hpre c (List.mem_cons_self c cpre), rfl⟩
    have ih := tryConnections_stops net methods cpre conn crest r log
      (fun x hx => hpre x (List.mem_cons_of_mem c hx)) hm
    rw [List.cons_append, tryConnections, hc]
    simp [ih, List.append_assoc]

/-- C2 amended: for every RPC attempt in the probe's two-axis fallback — any
transport (TLS or plaintext, at any position of the transport list) and any
method position within it — whose response parses as a JSON object lacking a
top-level `result` field, the probe builds the protocol-error record carrying
the response's `error` sub-object verbatim (with the response `id`, the
method name, the connection type and that transport's `self_signed` flag) and
returns it immediately, terminating the probe with that attempt's outcome:
the attempt log ends at that attempt and neither the remaining methods nor
the remaining transports are ever attempted. -/
theorem c2_missing_result_terminates (net : Network) (host : String)
    (ports : PortsSpec) (method : Option String) (params : List JValue)
    (cpre : List ConnOpt) (conn : ConnOpt) (crest : List ConnOpt)
    (mpre : List MethodCfg) (m : MethodCfg) (mrest : List MethodCfg)
    (fields : List (String × JValue))
    (hconns : connection_options ports = cpre ++ conn :: crest)
    (hreach : (connection_options ports).any (fun c => net.reach c) = true)
    (hcpre : ∀ c ∈ cpre, (tryMethods net c (methodsList method params)).1 = none)
    (hmeths : methodsList method params = mpre ++ m :: mrest)
    (hmpre : ∀ mp ∈ mpre,
      classifyAttempt conn mp (net.ping conn mp) (net.rpc conn mp) = none)
    (hrpc : net.rpc conn m = .ok (.obj fields))
    (hnores : jlookup fields "result" = none) :
    query_electrumx_server net host ports method params =
      (.malformed (net.ping conn m) (jlookup fields "id")
        (jlookup fields "error") m.method (connTypeStr conn.use_ssl)
        conn.use_ssl,
       (cpre.map fun c =>
           (tryMethods net c (methodsList method params)).2).flatten ++
         (mpre.map (fun mp => (conn, mp)) ++ [(conn, m)])) := by
  have hm : tryMethods net conn (methodsList method params) =
      (some (.malformed (net.ping conn m) (jlookup fields "id")
          (jlookup fields "error") m.method (connTypeStr conn.use_ssl)
          conn.use_ssl),
       mpre.map (fun mp => (conn, mp)) ++ [(conn, m)]) := by
    rw [hmeths]
    exact tryMethods_stops net conn mpre m mrest fields hmpre hrpc hnores
  have htc := tryConnections_stops net (methodsList method params) cpre conn
    crest _ _ hcpre hm
  rw [← hconns] at htc
  simp [query_electrumx_server, hreach, htc]

def net2w : Network :=
  { reach := fun _ => true,
    rpc := fun _ m =>
      if m.method = defaultMethod then .exn
      else .ok (.obj [("error", .str "nope")]),
    ping := fun _ _ => 3 }

/-- Witness for the amended C2, exercising a non-trivial position of the
fallback grid: on the TLS transport of a two-transport spec, the first method
raises and the second method's response lacks `result`; the probe terminates
there, never reaching the third method or the plaintext transport. -/
theorem c2_missing_result_terminates_witness :
    query_electrumx_server net2w "example.com" (.dict (some 50002) (some 50001))
      none [] =
      (.malformed 3 none (some (.str "nope")) "server.features" "SSL" true,
       [({ port := 50002, use_ssl := true },
         { method := defaultMethod, params := [] }),
        ({ port := 50002, use_ssl := true },
         { method := "server.features", params := [] })]) :=
  c2_missing_result_terminates net2w "example.com"
    (.dict (some 50002) (some 50001)) none []
    [] { port := 50002, use_ssl := true } [{ port := 50001, use_ssl := false }]
    [{ method := defaultMethod, params := [] }]
    { method := "server.features", params := [] }
    [{ method := "blockchain.numblocks.subscribe", params := [] }]
    [("error", JValue.str "nope")]
    rfl rfl (fun c hc => absurd hc (List.not_mem_nil c)) rfl
    (by
      intro mp hmp
      simp only [List.mem_singleton] at hmp
      subst hmp
      rfl)
    rfl rfl

/-! ### C8: behaviour on a response whose `result` is JSON `null` -/

def net8 : Network :=
  { reach := fun _ => true,
    rpc := fun _ _ => .ok (.obj [("id", .num 1), ("result", .null)]),
    ping := fun _ _ => 4 }

/-- C8, evaluated at the failing input: for the response
`{"id": 1, "result": null}` the probe does NOT classify the attempt as a
protocol error — the `"result" not in response_data` membership test sees the
key as present, so the probe returns the SUCCESS record with a null `result`
(the online path; the `electrum_query` endpoint then crashes in
`flattened_result.update(None)` with an uncaught `TypeError`). -/
theorem c8_null_result_reported_success :
    query_electrumx_server net8 "example.com" (.dict (some 50002) none) none [] =
      (.success 4 .null "blockchain.headers.subscribe" "SSL" true,
       [({ port := 50002, use_ssl := true },
         { method := "blockchain.headers.subscribe", params := [] })]) := rfl

/-! ## Publisher (`src/publisher/publisher.py`)

`is_stale` and the per-key body of `publish_checks`.  A target's stored Redis
value is modelled with its parsed `LastUpdated` timestamp (seconds, UTC;
`none` for an absent or empty field — a present-but-unparseable timestamp
also takes the exception path of `is_stale`, which returns `True`, outside
the scope of the claims below).  `refresh` models
`SERVER_REFRESH_INTERVAL_SECONDS` and `now` the current time. -/

structure TargetData where
  lastUpdated : Option Int
  user_submitted : Bool
  port : Option Nat
  check_id : Option String
  version : Option String
deriving Repr, DecidableEq

def is_stale (refresh now : Int) (d : TargetData) : Bool :=
  match d.lastUpdated with
  | none => true
  | some t =>
    if d.user_submitted && decide (now - t < 60) then false
    else decide (now - t > refresh)

/-- The `check_data` dict published to NATS, with the subject it is published
on.  `version` is attached only for BTC targets. -/
structure CheckData where
  type_ : String
  host : String
  port : Nat
  user_submitted : Bool
  check_id : Option String
  version : Option String
deriving Repr, DecidableEq

def keyNetwork (key : String) : String := String.mk (key.data.take 3)

def keyHost (key : String) : String := String.mk (key.data.drop 4)

/-- One iteration of the `for key in keys` body of `publish_checks`
(lines 66-98): `none` models `continue` (missing data, or the
recently-checked skip), `some (subject, check_data)` a publish. The NATS
subject uses the default prefix `hosh.`. -/
def processKey (refresh now : Int) (key : String) (raw : Option TargetData) :
    Option (String × CheckData) :=
  match raw with
  | none => none
  | some d =>
    if !d.user_submitted && !is_stale refresh now d then none
    else
      let network := keyNetwork key
      some ("hosh.check." ++ network,
        { type_ := network,
          host := keyHost key,
          port := d.port.getD (if network = "btc" then 50002 else 9067),
          user_submitted := d.user_submitted,
          check_id := d.check_id,
          version := if network = "btc" then some (d.version.getD "unknown")
                     else none })

/-- One Publisher scan cycle over the registry entries it reads. -/
def publishCycle (refresh now : Int) (entries : List (String × Option TargetData)) :
    List (String × CheckData) :=
  entries.filterMap fun e => processKey refresh now e.1 e.2

/-- C5: a target whose last-checked timestamp is within `refresh_interval` of
now and which is not user-submitted is skipped — the Publisher emits zero
CheckRequests for it during a scan cycle, wherever it sits in the registry. -/
theorem c5_fresh_target_not_published (refresh now t : Int) (key : String)
    (d : TargetData) (hus : d.user_submitted = false)
    (hlu : d.lastUpdated = some t) (hfresh : now - t ≤ refresh) :
    processKey refresh now key (some d) = none ∧
    ∀ pre post, publishCycle refresh now (pre ++ (key, some d) :: post) =
      publishCycle refresh now pre ++ publishCycle refresh now post := by
  have hstale : is_stale refresh now d = false := by
    rw [is_stale, hlu]
    simp only [hus, Bool.false_and, Bool.false_eq_true, if_false,
      decide_eq_false_iff_not]
    omega
  have hskip : processKey refresh now key (some d) = none := by
    simp [processKey, hus, hstale]
  refine ⟨hskip, fun pre post => ?_⟩
  simp [publishCycle, List.filterMap_append, List.filterMap_cons, hskip]

def d5 : TargetData :=
  { lastUpdated := some 900, user_submitted := false, port := none,
    check_id := none, version := none }

/-- Witness for C5: a target checked 100 s ago with a 300 s refresh interval
is skipped. -/
theorem c5_fresh_target_not_published_witness :
    processKey 300 1000 "btc:example.com" (some d5) = none :=
  (c5_fresh_target_not_published 300 1000 900 "btc:example.com" d5 rfl rfl
    (by decide)).1

/-! ### C6: check_id and subject of emitted requests -/

def d6 : TargetData :=
  { lastUpdated := some 0, user_submitted := true, port := some 50002,
    check_id := some "stored-check-id", version := some "1.4" }

/-- Counterexample to C6: for a due user-submitted BTC target the Publisher
emits a CheckRequest whose `check_id` is the one read back from previously
stored state (`data.get('check_id')`), not a freshly assigned one, and
publishes it on `hosh.check.btc` — not on `hosh.check.btc.user` as the claim
requires for a user-submitted BTC target. -/
theorem c6_counterexample :
    processKey 300 100000 "btc:example.com" (some d6) =
      some ("hosh.check.btc",
        { type_ := "btc", host := "example.com", port := 50002,
          user_submitted := true, check_id := some "stored-check-id",
          version := some "1.4" }) := rfl

/-- C6 amended: every CheckRequest emitted by the Publisher's scan cycle
carries the `check_id` stored in the target's registry data (None when
absent) rather than a fresh one, and is published on `check.<module>` for all
targets — including user-submitted BTC targets; the `check.btc.user` subject
and freshly generated UUID check_ids are used only by the dashboard's
on-demand trigger (`publish_chain_check_trigger`), not by the Publisher. -/
theorem c6_check_id_reused (refresh now : Int) (key : String) (d : TargetData)
    (subj : String) (cd : CheckData)
    (h : processKey refresh now key (some d) = some (subj, cd)) :
    subj = "hosh.check." ++ keyNetwork key ∧
    cd.check_id = d.check_id ∧
    cd.user_submitted = d.user_submitted := by
  rw [processKey] at h
  split at h
  · cases h
  · injection h with h
    injection h with h1 h2
    subst h1
    subst h2
    exact ⟨rfl, rfl, rfl⟩

/-- Witness for the amended C6 at the concrete due user-submitted target. -/
theorem c6_check_id_reused_witness :
    "hosh.check.btc" = "hosh.check." ++ keyNetwork "btc:example.com" ∧
    (some "stored-check-id" : Option String) = d6.check_id ∧
    true = d6.user_submitted :=
  c6_check_id_reused 300 100000 "btc:example.com" d6 "hosh.check.btc"
    { type_ := "btc", host := "example.com", port := 50002,
      user_submitted := true, check_id := some "stored-check-id",
      version := some "1.4" } rfl

/-! ## BTC checker worker (`src/checkers/btc/worker.py`)

`process_check_request` wraps its whole body in `try/except Exception`; the
`except` branch only prints.  The message is modelled as either `malformed`
(the body raises before reaching the probe: `json.loads` failure, missing
`host` key) or a well-formed request; the HTTP probe call
`query_server_data` is an oracle returning `none` when it returns `None`
(backend error/timeout — the skip-update path) and `some blob` otherwise.
The model returns what is written to Redis: `none` means nothing is stored
or published at all. -/

inductive WorkerMsg where
  | malformed
  | request (host : String) (port : Option Nat) (version : Option String)
      (check_id : Option String) (user_submitted : Bool)

inductive StoredRecord where
  | success (data : JValue) (user_submitted : Bool) (check_id : String)
  | failure (host : String) (port : Nat) (error_type : String)
      (error_message : String) (user_submitted : Bool) (check_id : String)

def process_check_request (probe : String → Nat → String → Option JValue) :
    WorkerMsg → Option StoredRecord
  | .malformed => none
  | .request host port version check_id user_submitted =>
    let p := port.getD 50002
    match probe host p (version.getD "unknown") with
    | some d => some (.success d user_submitted (check_id.getD "none"))
    | none => some (.failure host p "connection_failed"
        "Failed to connect or timeout" user_submitted (check_id.getD "none"))

def probe0 : String → Nat → String → Option JValue :=
  fun _ _ _ => some (.obj [])

/-- Counterexample to C7: a request whose processing raises inside the worker
(here: a message that fails to parse) produces NO result at all — nothing is
stored or published, in particular no `status=offline,
error_kind=internal_error` result; the request is silently dropped (the
`except` branch only prints). -/
theorem c7_counterexample :
    process_check_request probe0 .malformed = none := rfl

/-- C7 amended: when processing a CheckRequest raises an exception inside the
worker, the worker logs it and emits no result for that request (the request
is dropped); a result record is produced only for well-formed requests, and
when the probe call itself fails the stored record is an error record with
`error_type=connection_failed` — the `internal_error` kind is never
produced. -/
theorem c7_exception_drops_request
    (probe : String → Nat → String → Option JValue) (host : String)
    (port : Option Nat) (version : Option String) (check_id : Option String)
    (us : Bool) :
    process_check_request probe .malformed = none ∧
    (probe host (port.getD 50002) (version.getD "unknown") = none →
      process_check_request probe (.request host port version check_id us) =
        some (.failure host (port.getD 50002) "connection_failed"
          "Failed to connect or timeout" us (check_id.getD "none"))) := by
  refine ⟨rfl, fun h => ?_⟩
  simp [process_check_request, h]

/-- Witness for the amended C7: with an always-failing probe, a well-formed
request stores the `connection_failed` error record. -/
theorem c7_exception_drops_request_witness :
    process_check_request (fun _ _ _ => none)
      (.request "example.com" none none none false) =
      some (.failure "example.com" 50002 "connection_failed"
        "Failed to connect or timeout" false "none") :=
  (c7_exception_drops_request (fun _ _ _ => none) "example.com" none none none
    false).2 rfl
